import Mathlib

/-
Verification of the presentation/reconciliation layer of the massive-terminal
repository.

This file is a shallow embedding of the relevant parts of the Rust source:

- `src/terminal/scroll_locations.rs` (the scroll bucket allocator),
- `src/terminal/view.rs` (the virtualized line pool and the view geometry),
- `src/terminal/selection.rs` and `src/terminal/presenter.rs` (selection
  state machine and `SelectedRange`),
- `src/range_tools.rs` / the `rangeset` crate helpers they delegate to.

Modelling conventions:

- `StableRowIndex` (Rust `isize`) and pixel offsets (Rust `i64`) are
  modelled as `Int`.  The pixel and row arithmetic the claims are about is
  far from the 2^63 overflow boundary, so wrap-around is not modelled; where
  an `isize` saturating operation or an `isize`/`usize` cast is semantically
  relevant (selection ranges), it is modelled explicitly with the constants
  `isizeMax` and `usizeMax`.
- `BUCKET_SIZE` is 16 in debug builds and 1024 in release builds, so all
  theorems are parametric in the bucket size `B`.
- Scene-graph handles (`Handle<Location>`, `Handle<Visual>`) are opaque to
  this subsystem; they are modelled as `Nat` identifiers handed out by a
  counter inside `Scene` (`Scene::stage`).
- `HashMap<BucketKey, ScrollLocation>` is modelled as an association list
  keyed by the bucket key: the embedded operations only use entry lookup,
  insert of an absent key, `iter_mut` and `retain`, all of which are
  membership-faithful on an association list.
- `rangeset::RangeSet` is modelled as a list of half-open ranges with
  union membership semantics; the operations used by the embedded code
  (`add_range` and membership) are faithful to that reading.
-/

namespace MassiveTerminal

/-- Half-open integer range, Rust's `Range<isize>` / `Range<StableRowIndex>`.
`stop` stands for the Rust field `end`, which is a reserved word in Lean. -/
structure IRange where
  start : Int
  stop : Int
  deriving Repr, DecidableEq

namespace IRange

/-- Membership of the half-open range, `Range::contains`. -/
def memP (r : IRange) (x : Int) : Prop :=
  r.start ≤ x ∧ x < r.stop

instance (r : IRange) (x : Int) : Decidable (r.memP x) := by
  unfold memP; infer_instance

/-- Boolean membership, used where the Rust code branches on `contains`. -/
def memb (r : IRange) (x : Int) : Bool :=
  decide (r.memP x)

/-- Rust `rangeset::intersects_range`: the two half-open ranges share an element.
Empty ranges intersect nothing. -/
def intersects (a b : IRange) : Bool :=
  decide (max a.start b.start < min a.stop b.stop)

/-- Rust `RangeTools::is_inside` from `src/range_tools.rs`. -/
def is_inside (a b : IRange) : Bool :=
  decide (b.start ≤ a.start ∧ b.stop ≥ a.stop)

theorem intersects_iff_common (a b : IRange) :
    a.intersects b = true ↔ ∃ x, a.memP x ∧ b.memP x := by
  unfold intersects memP
  constructor
  · intro h
    exact ⟨max a.start b.start, by simp at h; omega, by simp at h; omega⟩
  · rintro ⟨x, hx⟩
    simp only [decide_eq_true_eq]
    omega

end IRange

/-- Rust `WithLength::with_len` from `src/range_tools.rs`. -/
def withLen (start : Int) (len : Int) : IRange :=
  ⟨start, start + len⟩

/-- The `rangeset::RangeSet` of stable row indices, modelled as a list of
ranges with union membership semantics. -/
abbrev RangeSet := List IRange

namespace RangeSet

/-- Rust `RangeSet::add_range`. -/
def add_range (rs : RangeSet) (r : IRange) : RangeSet :=
  rs ++ [r]

/-- A stable row is a member of the set if one of the ranges holds it. -/
def memP (rs : RangeSet) (x : Int) : Prop :=
  ∃ r ∈ rs, r.memP x

instance (rs : RangeSet) (x : Int) : Decidable (rs.memP x) := by
  unfold memP; infer_instance

end RangeSet

/-! Scene (scene-graph staging collaborator)

The scene graph's `stage` operation registers a visual or coordinate frame
and returns a fresh handle.  Only handle identity matters to this
subsystem, so a handle is a `Nat` drawn from a counter. -/

structure Scene where
  next_handle : Nat
  deriving Repr, DecidableEq

/-- Rust `Scene::stage`: returns a fresh handle. -/
def Scene.stage (s : Scene) : Nat × Scene :=
  (s.next_handle, ⟨s.next_handle + 1⟩)

/-! Scroll bucket allocator (`src/terminal/scroll_locations.rs`) -/

/-- Rust `ScrollLocation`: a live bucket's cached matrix offset and the handle of
its shared coordinate frame (`Handle<Location>`). -/
structure ScrollLocation where
  matrix_scroll_offset_px : Int
  location : Nat
  deriving Repr, DecidableEq

/-- Rust `ScrollLocations`: the bucket allocator.  The `parent` handle of the
Rust struct only feeds staged locations and plays no role in the claims, so
it is dropped.  `locations` is the `HashMap<BucketKey, ScrollLocation>`
as an association list (keys are kept distinct by construction). -/
structure ScrollLocations where
  line_height_px : Int
  scroll_offset_px : Int
  locations : List (Int × ScrollLocation)
  deriving Repr, DecidableEq

namespace ScrollLocations

/-- Rust `ScrollLocations::new` (the `parent` handle is dropped). -/
def new (line_height_px scroll_offset_px : Int) : ScrollLocations :=
  ⟨line_height_px, scroll_offset_px, []⟩

/-- Rust `ScrollLocations::bucket_key`: `stable_index.div_euclid(BUCKET_SIZE)`.
Rust's `div_euclid` is `Int.ediv`. -/
def bucket_key (B stable_index : Int) : Int :=
  stable_index.ediv B

/-- Rust `ScrollLocations::bucket_stable_range`:
`(*index * BUCKET_SIZE).with_len(BUCKET_SIZE)`. -/
def bucket_stable_range (B index : Int) : IRange :=
  withLen (index * B) B

/-- Rust `ScrollLocations::bucket_base_scroll_offset`:
`bucket_stable_range(index).start * line_height`. -/
def bucket_base_scroll_offset (B index line_height : Int) : Int :=
  (bucket_stable_range B index).start * line_height

/-- Rust `ScrollLocations::acquire_line_location`.  Returns
`((location_handle, line_offset_px), allocator, scene)`.  The staged
`Transform` handle of the vacant branch is created (advancing the scene
counter) but, as in the Rust code, only reachable through the location, so
it is not stored separately. -/
def acquire_line_location (B : Int) (scene : Scene) (sl : ScrollLocations)
    (stable_index : Int) : (Nat × Int) × ScrollLocations × Scene :=
  let bucket_key := bucket_key B stable_index
  let line_height_px := sl.line_height_px
  let stable_line_offset_px := stable_index * line_height_px
  let bucket_top_px := (bucket_stable_range B bucket_key).start * line_height_px
  let line_offset_px := stable_line_offset_px - bucket_top_px
  match sl.locations.lookup bucket_key with
  | some occupied => ((occupied.location, line_offset_px), sl, scene)
  | none =>
      let matrix_scroll_offset_px := bucket_top_px - sl.scroll_offset_px
      let (_transform, scene) := scene.stage
      let (location, scene) := scene.stage
      ((location, line_offset_px),
        { sl with
          locations := (bucket_key, ⟨matrix_scroll_offset_px, location⟩) :: sl.locations },
        scene)

/-- The per-bucket body of `set_scroll_offset_px`'s `iter_mut().for_each`:
recompute the offset of every live bucket and collect the frame updates that
were actually pushed (`(frame handle, new offset)` pairs). -/
def applyScroll (B line_height scroll_offset_px : Int) :
    List (Int × ScrollLocation) → List (Int × ScrollLocation) × List (Nat × Int)
  | [] => ([], [])
  | (index, location) :: rest =>
      let (rest', updates) := applyScroll B line_height scroll_offset_px rest
      let base_offset := bucket_base_scroll_offset B index line_height
      let new_scroll_offset := base_offset - scroll_offset_px
      if new_scroll_offset = location.matrix_scroll_offset_px then
        ((index, location) :: rest', updates)
      else
        ((index, ⟨new_scroll_offset, location.location⟩) :: rest',
          (location.location, new_scroll_offset) :: updates)

/-- Rust `ScrollLocations::set_scroll_offset_px`.  Returns the new allocator and
the list of frame-transform updates pushed to the scene. -/
def set_scroll_offset_px (B : Int) (sl : ScrollLocations) (scroll_offset_px : Int) :
    ScrollLocations × List (Nat × Int) :=
  let (locations, updates) :=
    applyScroll B sl.line_height_px scroll_offset_px sl.locations
  ({ sl with locations := locations, scroll_offset_px := scroll_offset_px }, updates)

/-- Rust `ScrollLocations::mark_used`: retain only the buckets whose stable range
intersects the active range. -/
def mark_used (B : Int) (sl : ScrollLocations) (stable_range : IRange) :
    ScrollLocations :=
  { sl with
    locations := sl.locations.filter
      (fun kl => stable_range.intersects (bucket_stable_range B kl.1)) }

end ScrollLocations

end MassiveTerminal
namespace MassiveTerminal

namespace ScrollLocations

theorem acquire_occupied {B : Int} {scene : Scene} {sl : ScrollLocations} {r : Int}
    {occ : ScrollLocation}
    (h : sl.locations.lookup (bucket_key B r) = some occ) :
    acquire_line_location B scene sl r =
      ((occ.location,
        r * sl.line_height_px - (bucket_key B r * B) * sl.line_height_px), sl, scene) := by
  simp only [acquire_line_location, h, bucket_stable_range, withLen]

theorem acquire_vacant {B : Int} {scene : Scene} {sl : ScrollLocations} {r : Int}
    (h : sl.locations.lookup (bucket_key B r) = none) :
    acquire_line_location B scene sl r =
      ((scene.next_handle + 1,
        r * sl.line_height_px - (bucket_key B r * B) * sl.line_height_px),
       { sl with locations :=
          (bucket_key B r,
            ⟨(bucket_key B r * B) * sl.line_height_px - sl.scroll_offset_px,
             scene.next_handle + 1⟩) :: sl.locations },
       ⟨scene.next_handle + 2⟩) := by
  simp only [acquire_line_location, h, bucket_stable_range, withLen, Scene.stage]

end ScrollLocations

end MassiveTerminal
namespace MassiveTerminal

/-- Claim C2: two stable rows with the same Euclidean-division bucket key —
including negative rows and rows exactly on a bucket boundary — acquire the
same bucket, i.e. the same coordinate-frame handle. -/
theorem acquire_bucket_deterministic (B : Int) (scene : Scene)
    (sl : ScrollLocations) (r1 r2 : Int)
    (hkey : ScrollLocations.bucket_key B r1 = ScrollLocations.bucket_key B r2) :
    ∀ loc1 off1 sl1 scene1,
      ScrollLocations.acquire_line_location B scene sl r1 = ((loc1, off1), sl1, scene1) →
      (ScrollLocations.acquire_line_location B scene1 sl1 r2).1.1 = loc1 := by
  intro loc1 off1 sl1 scene1 h1
  cases hl : sl.locations.lookup (ScrollLocations.bucket_key B r1) with
  | some occ =>
      rw [ScrollLocations.acquire_occupied hl] at h1
      simp only [Prod.mk.injEq] at h1
      obtain ⟨⟨hloc, -⟩, hsl, -⟩ := h1
      subst hsl
      have hl2 : sl.locations.lookup (ScrollLocations.bucket_key B r2) = some occ := by
        rw [← hkey]; exact hl
      rw [ScrollLocations.acquire_occupied hl2, hloc]
  | none =>
      rw [ScrollLocations.acquire_vacant hl] at h1
      simp only [Prod.mk.injEq] at h1
      obtain ⟨⟨hloc, -⟩, hsl, -⟩ := h1
      have hl2 : sl1.locations.lookup (ScrollLocations.bucket_key B r2) =
          some ⟨(ScrollLocations.bucket_key B r1 * B) * sl.line_height_px -
                  sl.scroll_offset_px, scene.next_handle + 1⟩ := by
        rw [← hkey, ← hsl]
        simp [List.lookup]
      rw [ScrollLocations.acquire_occupied hl2, ← hloc]

/-- Claim C2 witness: rows −16 and −1 (the former exactly on a bucket
boundary for bucket size 16) acquire the identical frame handle. -/
theorem acquire_bucket_deterministic_witness :
    (ScrollLocations.acquire_line_location 16 ⟨2⟩
        ⟨10, 0, [((-1 : Int), ⟨-160, 1⟩)]⟩ (-1)).1.1 = 1 :=
  acquire_bucket_deterministic 16 ⟨0⟩ (ScrollLocations.new 10 0) (-16) (-1)
    (by decide) 1 0 ⟨10, 0, [((-1 : Int), ⟨-160, 1⟩)]⟩ ⟨2⟩ (by decide)

end MassiveTerminal
namespace MassiveTerminal

namespace ScrollLocations

theorem applyScroll_establishes (B line_height px : Int)
    (ls : List (Int × ScrollLocation)) :
    ∀ kl ∈ (applyScroll B line_height px ls).1,
      kl.2.matrix_scroll_offset_px =
        bucket_base_scroll_offset B kl.1 line_height - px := by
  induction ls with
  | nil => simp [applyScroll]
  | cons hd tl ih =>
      obtain ⟨index, location⟩ := hd
      simp only [applyScroll]
      split
      · rename_i heq
        intro kl hkl
        rcases List.mem_cons.mp hkl with h | h
        · subst h; exact heq.symm
        · exact ih kl h
      · intro kl hkl
        rcases List.mem_cons.mp hkl with h | h
        · subst h; rfl
        · exact ih kl h

theorem applyScroll_of_established (B line_height px : Int)
    (ls : List (Int × ScrollLocation))
    (h : ∀ kl ∈ ls, kl.2.matrix_scroll_offset_px =
        bucket_base_scroll_offset B kl.1 line_height - px) :
    applyScroll B line_height px ls = (ls, []) := by
  induction ls with
  | nil => simp [applyScroll]
  | cons hd tl ih =>
      obtain ⟨index, location⟩ := hd
      have hhd := h (index, location) (List.mem_cons_self _ _)
      have htl := ih fun kl hkl => h kl (List.mem_cons_of_mem _ hkl)
      simp only [applyScroll, htl]
      rw [if_pos hhd.symm]

end ScrollLocations

/-- Claim C4: applying the same scroll offset twice in a row pushes zero
frame-transform updates during the second call, because every live bucket's
update is issued only when the recomputed value differs from its cache. -/
theorem set_scroll_offset_idempotent (B : Int) (sl : ScrollLocations) (px : Int) :
    (ScrollLocations.set_scroll_offset_px B
        (ScrollLocations.set_scroll_offset_px B sl px).1 px).2 = [] := by
  simp only [ScrollLocations.set_scroll_offset_px]
  rw [ScrollLocations.applyScroll_of_established B sl.line_height_px px _
    (ScrollLocations.applyScroll_establishes B sl.line_height_px px sl.locations)]

/-- The cached-offset invariant of claim C9: every live bucket's cached
matrix scroll offset is its base pixel offset (bucket start row times the
line height) minus the allocator's recorded global scroll offset. -/
def SLInv (B : Int) (sl : ScrollLocations) : Prop :=
  ∀ kl ∈ sl.locations,
    kl.2.matrix_scroll_offset_px =
      ScrollLocations.bucket_base_scroll_offset B kl.1 sl.line_height_px
        - sl.scroll_offset_px

/-- The allocator states reachable by any sequence of
`acquire_line_location`, `set_scroll_offset_px` and `mark_used` calls from a
freshly constructed allocator. -/
inductive Reachable (B : Int) : ScrollLocations → Prop where
  | init (line_height_px scroll_offset_px : Int) :
      Reachable B (ScrollLocations.new line_height_px scroll_offset_px)
  | acquire (scene : Scene) (stable_index : Int) {sl : ScrollLocations} :
      Reachable B sl →
      Reachable B (ScrollLocations.acquire_line_location B scene sl stable_index).2.1
  | set_scroll (scroll_offset_px : Int) {sl : ScrollLocations} :
      Reachable B sl →
      Reachable B (ScrollLocations.set_scroll_offset_px B sl scroll_offset_px).1
  | mark (stable_range : IRange) {sl : ScrollLocations} :
      Reachable B sl →
      Reachable B (ScrollLocations.mark_used B sl stable_range)

/-- Claim C9: in every reachable allocator state, every live bucket's cached
matrix scroll offset equals the bucket's base pixel offset minus the
currently recorded scroll offset. -/
theorem reachable_offset_invariant {B : Int} {sl : ScrollLocations}
    (h : Reachable B sl) : SLInv B sl := by
  induction h with
  | init line_height_px scroll_offset_px =>
      intro kl hkl
      simp [ScrollLocations.new] at hkl
  | acquire scene stable_index hr ih =>
      rename_i sl'
      cases hl : sl'.locations.lookup (ScrollLocations.bucket_key B stable_index) with
      | some occ =>
          rw [ScrollLocations.acquire_occupied hl]
          exact ih
      | none =>
          rw [ScrollLocations.acquire_vacant hl]
          intro kl hkl
          rcases List.mem_cons.mp hkl with h | h
          · subst h
            simp [ScrollLocations.bucket_base_scroll_offset,
              ScrollLocations.bucket_stable_range, withLen]
          · exact ih kl h
  | set_scroll scroll_offset_px hr ih =>
      rename_i sl'
      simp only [ScrollLocations.set_scroll_offset_px]
      intro kl hkl
      exact ScrollLocations.applyScroll_establishes B sl'.line_height_px
        scroll_offset_px sl'.locations kl hkl
  | mark stable_range hr ih =>
      rename_i sl'
      intro kl hkl
      exact ih kl (List.mem_of_mem_filter hkl)

/-- Claim C9 witness: the invariant, instantiated at the concrete reachable
state obtained by acquiring row −5 after construction with line height 10
and scroll offset 0. -/
theorem reachable_offset_invariant_witness :
    SLInv 16 (ScrollLocations.acquire_line_location 16 ⟨0⟩
      (ScrollLocations.new 10 0) (-5)).2.1 :=
  reachable_offset_invariant
    (Reachable.acquire ⟨0⟩ (-5) (Reachable.init 10 0))

/-- Claim C10: the in-bucket pixel offset returned by
`acquire_line_location` equals `stable_index.rem_euclid(BUCKET_SIZE)` times
the line height, hence lies in `[0, BUCKET_SIZE * line_height_px)`
regardless of scrollback depth, including negative rows. -/
theorem acquire_offset_bounded (B : Int) (scene : Scene) (sl : ScrollLocations)
    (r : Int) (hB : 0 < B) (hh : 0 < sl.line_height_px) :
    (ScrollLocations.acquire_line_location B scene sl r).1.2
        = r.emod B * sl.line_height_px ∧
    0 ≤ (ScrollLocations.acquire_line_location B scene sl r).1.2 ∧
    (ScrollLocations.acquire_line_location B scene sl r).1.2
        < B * sl.line_height_px := by
  have hoff : (ScrollLocations.acquire_line_location B scene sl r).1.2
      = r.emod B * sl.line_height_px := by
    have heq : r * sl.line_height_px
        - (ScrollLocations.bucket_key B r * B) * sl.line_height_px
        = r.emod B * sl.line_height_px := by
      show r * sl.line_height_px - r / B * B * sl.line_height_px
          = r % B * sl.line_height_px
      rw [Int.emod_def]
      ring
    cases hl : sl.locations.lookup (ScrollLocations.bucket_key B r) with
    | some occ => rw [ScrollLocations.acquire_occupied hl]; exact heq
    | none => rw [ScrollLocations.acquire_vacant hl]; exact heq
  refine ⟨hoff, ?_, ?_⟩
  · rw [hoff]
    exact mul_nonneg (Int.emod_nonneg r (by omega)) (le_of_lt hh)
  · rw [hoff]
    exact mul_lt_mul_of_pos_right (Int.emod_lt_of_pos r hB) hh

/-- Claim C10 witness: acquiring row −5 with bucket size 16 and line height
10 yields in-bucket offset 110 = (−5 mod 16) · 10, inside `[0, 160)`. -/
theorem acquire_offset_bounded_witness :
    (ScrollLocations.acquire_line_location 16 ⟨0⟩
        (ScrollLocations.new 10 0) (-5)).1.2 = 110 ∧
    (0 : Int) ≤ 110 ∧ (110 : Int) < 160 := by
  have h := acquire_offset_bounded 16 ⟨0⟩ (ScrollLocations.new 10 0) (-5)
    (by decide) (by decide)
  exact ⟨by rw [h.1]; decide, by decide, by decide⟩

end MassiveTerminal
namespace MassiveTerminal

/-! View geometry (`src/terminal/view.rs`, `TerminalView::geometry`) -/

/-- Rust `TerminalGeometry` from `src/terminal/geometry.rs`: `cell_size_px`
split into width and height, `terminal_size` into columns and rows. -/
structure TerminalGeometry where
  cell_width_px : Int
  cell_height_px : Int
  columns : Nat
  rows : Nat
  deriving Repr, DecidableEq

/-- Rust `ViewGeometry` from `src/terminal/view_geometry.rs`. -/
structure ViewGeometry where
  terminal : TerminalGeometry
  stable_range_ascend_px : Int
  stable_range : IRange
  deriving Repr, DecidableEq

/-- Rust `TerminalView::geometry`.  The view's animated scroll offset enters only
through `current_scroll_offset_px_snapped`; the already snapped (integral)
pixel value is the `topmost_pixel_line_visible` parameter.  `div_euclid` and
`rem_euclid` are `Int`'s `/` and `%`.  The two `assert!`s of the source hold
under the preconditions proved below and do not alter the result. -/
def TerminalView.geometry (terminal_geometry : TerminalGeometry)
    (topmost_pixel_line_visible : Int) : ViewGeometry :=
  let rows := terminal_geometry.rows
  let line_height_px := terminal_geometry.cell_height_px
  let topmost_stable_render_line := topmost_pixel_line_visible / line_height_px
  let topmost_stable_render_line_ascend := topmost_pixel_line_visible % line_height_px
  let bottom_pixel_line_visible :=
    topmost_pixel_line_visible + line_height_px * (rows : Int) - 1
  let bottom_stable_render_line := bottom_pixel_line_visible / line_height_px
  { terminal := terminal_geometry
    stable_range_ascend_px := topmost_stable_render_line_ascend
    stable_range := ⟨topmost_stable_render_line, bottom_stable_render_line + 1⟩ }

theorem ediv_of_decomposition {h q r : Int} (hh : 0 < h) (h0 : 0 ≤ r)
    (h1 : r < h) : (h * q + r) / h = q := by
  rw [add_comm, Int.add_mul_ediv_left r q (by omega : h ≠ 0),
    Int.ediv_eq_zero_of_lt h0 h1]
  omega

/-- Claim C3 counterexample: with line height 10, one terminal row and
snapped scroll offset 5 px, the computed stable range is `0..2`, of length
2, not `rows = 1`: a mid-line scroll position makes the range one row
longer than the terminal. -/
theorem geometry_stable_range_rows_counterexample :
    ¬ ((TerminalView.geometry ⟨8, 10, 80, 1⟩ 5).stable_range.stop
        - (TerminalView.geometry ⟨8, 10, 80, 1⟩ 5).stable_range.start
        = ((⟨8, 10, 80, 1⟩ : TerminalGeometry).rows : Int)) := by
  decide

/-- Claim C3 (amended): for a positive line height and at least one row, the
stable range computed by `TerminalView::geometry` from the snapped scroll
offset has length `rows` when the offset is line-aligned and `rows + 1`
otherwise. -/
theorem geometry_stable_range_rows (g : TerminalGeometry) (px : Int)
    (hh : 0 < g.cell_height_px) (hr : 1 ≤ g.rows) :
    (TerminalView.geometry g px).stable_range.stop
      - (TerminalView.geometry g px).stable_range.start
      = (g.rows : Int) + (if px % g.cell_height_px = 0 then 0 else 1) := by
  simp only [TerminalView.geometry]
  set h := g.cell_height_px with hdef
  set R := (g.rows : Int) with hRdef
  have hq := Int.ediv_add_emod px h
  have h0 : 0 ≤ px % h := Int.emod_nonneg px (by omega)
  have h1 : px % h < h := Int.emod_lt_of_pos px hh
  by_cases ha : px % h = 0
  · rw [if_pos ha]
    have hrw : px + h * R - 1 = h * (px / h + R - 1) + (h - 1) := by
      calc px + h * R - 1
          = (h * (px / h) + px % h) + h * R - 1 := by rw [hq]
        _ = h * (px / h + R - 1) + (px % h + h - 1) := by ring
        _ = h * (px / h + R - 1) + (h - 1) := by rw [ha]; ring
    rw [hrw, ediv_of_decomposition hh (by omega) (by omega)]
    omega
  · rw [if_neg ha]
    have hrw : px + h * R - 1 = h * (px / h + R) + (px % h - 1) := by
      calc px + h * R - 1
          = (h * (px / h) + px % h) + h * R - 1 := by rw [hq]
        _ = h * (px / h + R) + (px % h - 1) := by ring
    rw [hrw, ediv_of_decomposition hh (by omega) (by omega)]
    omega

/-- Claim C3 witness: line height 10, two rows, snapped offset 5 px — the
stable range has length 2 + 1 = 3. -/
theorem geometry_stable_range_rows_witness :
    (TerminalView.geometry ⟨8, 10, 80, 2⟩ 5).stable_range.stop
      - (TerminalView.geometry ⟨8, 10, 80, 2⟩ 5).stable_range.start = 3 := by
  rw [geometry_stable_range_rows ⟨8, 10, 80, 2⟩ 5 (by decide) (by decide)]
  decide

end MassiveTerminal
namespace MassiveTerminal

/-! Selection (`src/terminal/selection.rs`, `src/terminal/presenter.rs`) -/

/-- The largest `isize` value, `isize::MAX`. -/
def isizeMax : Int := 2 ^ 63 - 1

/-- The largest `usize` value, `usize::MAX`. -/
def usizeMax : Nat := 2 ^ 64 - 1

/-- Rust's `isize::saturating_add(1)` (for `+1` only the upper bound can
saturate). -/
def satAdd1 (x : Int) : Int := min (x + 1) isizeMax

/-- Modelled from the spec: `CellPos`, the cell position type the selection
code compiles against, with fields `column` and `row`.  The snapshot's
`src/terminal/view_geometry.rs` holds an earlier iteration of the struct
(fields `column`/`stable_row`, no ordering), so the `CellPos` used by
`src/terminal/selection.rs` is not under `src/`. -/
structure CellPos where
  column : Int
  row : Int
  deriving Repr, DecidableEq

/-- Rust `CellPos::new(column, row)` as used by the selection code. -/
def CellPos.new (column row : Int) : CellPos := ⟨column, row⟩

/-- Modelled from the spec: the total (row, column) lexicographic order on
cell positions — "start ≤ end in (row, column) order" — matching
`SelectionPos::partial_cmp` in `src/selection.rs`. -/
def cpLe (a b : CellPos) : Prop :=
  a.row < b.row ∨ (a.row = b.row ∧ a.column ≤ b.column)

instance (a b : CellPos) : Decidable (cpLe a b) := by
  unfold cpLe; infer_instance

/-- Rust `SelectionMode` from `src/terminal/selection.rs`. -/
inductive SelectionMode where
  | Cell
  | Word
  | Line
  deriving Repr, DecidableEq

/-- A record emitted through the `log` crate: `warn!` or `error!`. -/
inductive LogEvent where
  | warn
  | error
  deriving Repr, DecidableEq

/-- Rust `Selection` from `src/terminal/selection.rs`, parametric in the pixel
point type `P`.  (`PixelPoint` is an `f64` point; the state machine only
stores and forwards it, so its representation is irrelevant to the
claims.)  `from_` stands for the Rust field `from`, a reserved word in
Lean, `to_` for `to`. -/
inductive Selection (P : Type) where
  | Unselected
  | Selecting (mode : SelectionMode) (from_ : CellPos) (to_ : P)
  | Selected (mode : SelectionMode) (from_ : CellPos) (to_ : CellPos)
  deriving DecidableEq

/-- Rust `Selection::can_progress`. -/
def Selection.can_progress {P : Type} : Selection P → Bool
  | .Selecting .. => true
  | _ => false

/-- Rust `Selection::progress`: while `Selecting`, update the live end point;
otherwise log a warning and reset to `Unselected`.  The second component is
the log record the call emits. -/
def Selection.progress {P : Type} : Selection P → P → Selection P × Option LogEvent
  | .Selecting mode start _, end_ => (.Selecting mode start end_, none)
  | _, _ => (.Unselected, some .warn)

/-- Rust `Selection::selecting_end`. -/
def Selection.selecting_end {P : Type} : Selection P → Option P
  | .Selecting _ _ to_ => some to_
  | _ => none

/-- Rust `Selection::end` (named `end_` here, `end` is reserved): commit to
`Selected`, or log an internal error and reset when not `Selecting`. -/
def Selection.end_ {P : Type} : Selection P → CellPos → Selection P × Option LogEvent
  | .Selecting mode from_ _, to_ => (.Selected mode from_ to_, none)
  | _, _ => (.Unselected, some .error)

/-- Rust `Selection::reset`. -/
def Selection.reset {P : Type} : Selection P → Selection P :=
  fun _ => .Unselected

/-- Rust `massive_input::Progress`, the pointer-gesture progress event consumed
by `TerminalPresenter::selection_progress`. -/
inductive Progress (P : Type) where
  | Proceed (hit : P)
  | Commit
  | Cancel
  deriving DecidableEq

/-- Rust `TerminalPresenter::selection_progress`, restricted to its effect on
the selection state machine.  The scroll-state bookkeeping
(`scroll_selection` / `clear_selection_scroller`) mutates only the
presenter's scroll state and is omitted; `hitTest` is
`self.view_geometry().hit_test_cell`.  The function opens with
`assert!(self.selection.can_progress())`, modelled as `Option`: `none` is
the assertion failure (a panic). -/
def TerminalPresenter.selection_progress {P : Type} (hitTest : P → CellPos)
    (selection : Selection P) (progress : Progress P) :
    Option (Selection P × Option LogEvent) :=
  if selection.can_progress then
    match progress with
    | .Proceed view_hit => some (selection.progress view_hit)
    | .Commit =>
        match selection.selecting_end with
        | some end_ => some (selection.end_ (hitTest end_))
        | none => some (selection, none)
    | .Cancel => some (selection.reset, none)
  else
    none

/-- Claim C5 (code bug): `Selection::progress` itself handles a call in a
non-`Selecting` state defensively — it logs (a warning, not an error) and
forces the machine back to `Unselected` without failing — but the public
entry point `TerminalPresenter::selection_progress` opens with
`assert!(self.selection.can_progress())`, so the same protocol violation
panics there (modelled as `none`) before the defensive path can run,
contradicting the function's own doc comment ("Returns false if selection
can not progress") and the spec's never-fatal rule. -/
theorem selection_progress_not_selecting_behavior :
    TerminalPresenter.selection_progress (P := Unit) (fun _ => CellPos.new 0 0)
        .Unselected (.Proceed ()) = none ∧
    Selection.progress (P := Unit) .Unselected ()
        = (.Unselected, some .warn) :=
  ⟨rfl, rfl⟩

/-- Rust `SelectedRange` from `src/terminal/selection.rs`: a closed, normalized
selection interval.  `end_` stands for the Rust field `end`. -/
structure SelectedRange where
  start : CellPos
  end_ : CellPos
  deriving Repr, DecidableEq

/-- Rust `SelectedRange::new`: order-normalizes the two cell positions
(`if b >= a { start: a, end: b } else { start: b, end: a }`). -/
def SelectedRange.new (a b : CellPos) : SelectedRange :=
  if cpLe a b then ⟨a, b⟩ else ⟨b, a⟩

/-- Claim C6: `SelectedRange::new` normalizes — the start is ≤ the end in
the (row, column) lexicographic order — and is symmetric in its
arguments. -/
theorem selected_range_new_normalized (a b : CellPos) :
    cpLe (SelectedRange.new a b).start (SelectedRange.new a b).end_ ∧
    SelectedRange.new a b = SelectedRange.new b a := by
  obtain ⟨ac, ar⟩ := a
  obtain ⟨bc, br⟩ := b
  simp only [SelectedRange.new]
  split <;> split <;>
    simp_all [cpLe, SelectedRange.mk.injEq, CellPos.mk.injEq] <;>
    omega

end MassiveTerminal
namespace MassiveTerminal

/-- Rust `SelectedRange::stable_rows`:
`self.start.row..self.end.row.saturating_add(1)`. -/
def SelectedRange.stable_rows (s : SelectedRange) : IRange :=
  ⟨s.start.row, satAdd1 s.end_.row⟩

/-- Half-open `Range<usize>`. -/
structure URange where
  start : Nat
  stop : Nat
  deriving Repr, DecidableEq

/-- Rust `SelectedRange::column_range`: orders the two signed columns into a
half-open interval (saturating the upper bound at `isize::MAX`), then
converts to a `usize` range, clamping negatives to zero. -/
def SelectedRange.column_range (from_ to_ : Int) : URange :=
  let signed_range : IRange :=
    if to_ ≥ from_ then ⟨from_, satAdd1 to_⟩ else ⟨to_, satAdd1 from_⟩
  ⟨(max signed_range.start 0).toNat, (max signed_range.stop 0).toNat⟩

theorem column_range_eq (from_ to_ : Int) :
    SelectedRange.column_range from_ to_ =
      if to_ ≥ from_ then ⟨(max from_ 0).toNat, (max (satAdd1 to_) 0).toNat⟩
      else ⟨(max to_ 0).toNat, (max (satAdd1 from_) 0).toNat⟩ := by
  unfold SelectedRange.column_range
  split <;> rfl

/-- Rust `SelectedRange::cols_for_row`. -/
def SelectedRange.cols_for_row (s : SelectedRange) (row : Int)
    (rectangular : Bool) : URange :=
  if rectangular then
    if ¬ s.stable_rows.memP row then ⟨0, 0⟩
    else SelectedRange.column_range s.start.column s.end_.column
  else if ¬ s.stable_rows.memP row then ⟨0, 0⟩
  else if s.start.row = s.end_.row then
    SelectedRange.column_range s.start.column s.end_.column
  else if row = s.end_.row then SelectedRange.column_range 0 s.end_.column
  else if row = s.start.row then
    SelectedRange.column_range s.start.column isizeMax
  else ⟨0, usizeMax⟩

/-- Claim C7: on a normalized selection with in-bounds columns,
`cols_for_row(row, false)` yields the literal column span on a single-row
selection, `0` to the end column inclusive on the end row, the start
column to `MAX` on the start row, and the whole row on interior rows;
`cols_for_row(row, true)` yields the same span on every covered row of a
rectangular selection. -/
theorem cols_for_row_spec (s : SelectedRange)
    (hnorm : cpLe s.start s.end_)
    (hsc0 : 0 ≤ s.start.column) (hscM : s.start.column ≤ isizeMax)
    (hec0 : 0 ≤ s.end_.column) (hecM : s.end_.column < isizeMax)
    (herM : s.end_.row < isizeMax) :
    (s.start.row = s.end_.row →
      s.cols_for_row s.start.row false
        = ⟨s.start.column.toNat, s.end_.column.toNat + 1⟩) ∧
    (s.start.row < s.end_.row →
      s.cols_for_row s.end_.row false = ⟨0, s.end_.column.toNat + 1⟩ ∧
      s.cols_for_row s.start.row false
        = ⟨s.start.column.toNat, isizeMax.toNat⟩) ∧
    (∀ row, s.start.row < row → row < s.end_.row →
      s.cols_for_row row false = ⟨0, usizeMax⟩) ∧
    (∀ r1 r2, s.stable_rows.memP r1 → s.stable_rows.memP r2 →
      s.cols_for_row r1 true = s.cols_for_row r2 true) := by
  have hM : (0 : Int) < isizeMax := by norm_num [isizeMax]
  refine ⟨?_, ?_, ?_, ?_⟩
  · intro hrow
    have hmem : s.stable_rows.memP s.start.row := by
      simp only [SelectedRange.stable_rows, IRange.memP, satAdd1]
      omega
    have hcols : s.start.column ≤ s.end_.column := by
      rcases hnorm with h | ⟨h1, h2⟩ <;> omega
    unfold SelectedRange.cols_for_row
    rw [if_neg Bool.false_ne_true, if_neg (not_not_intro hmem), if_pos hrow,
      column_range_eq, if_pos (by omega : s.end_.column ≥ s.start.column)]
    simp only [URange.mk.injEq, satAdd1]
    omega
  · intro hrow
    constructor
    · have hmem : s.stable_rows.memP s.end_.row := by
        simp only [SelectedRange.stable_rows, IRange.memP, satAdd1]
        omega
      unfold SelectedRange.cols_for_row
      rw [if_neg Bool.false_ne_true, if_neg (not_not_intro hmem),
        if_neg (by omega : ¬ s.start.row = s.end_.row), if_pos rfl,
        column_range_eq, if_pos (by omega : s.end_.column ≥ (0 : Int))]
      simp only [URange.mk.injEq, satAdd1]
      omega
    · have hmem : s.stable_rows.memP s.start.row := by
        simp only [SelectedRange.stable_rows, IRange.memP, satAdd1]
        omega
      unfold SelectedRange.cols_for_row
      rw [if_neg Bool.false_ne_true, if_neg (not_not_intro hmem),
        if_neg (by omega : ¬ s.start.row = s.end_.row),
        if_neg (by omega : ¬ s.start.row = s.end_.row), if_pos rfl,
        column_range_eq, if_pos (by omega : isizeMax ≥ s.start.column)]
      simp only [URange.mk.injEq, satAdd1]
      omega
  · intro row h1 h2
    have hmem : s.stable_rows.memP row := by
      simp only [SelectedRange.stable_rows, IRange.memP, satAdd1]
      omega
    unfold SelectedRange.cols_for_row
    rw [if_neg Bool.false_ne_true, if_neg (not_not_intro hmem),
      if_neg (by omega : ¬ s.start.row = s.end_.row),
      if_neg (by omega : ¬ row = s.end_.row),
      if_neg (by omega : ¬ row = s.start.row)]
  · intro r1 r2 hm1 hm2
    unfold SelectedRange.cols_for_row
    rw [if_pos rfl, if_pos rfl, if_neg (not_not_intro hm1),
      if_neg (not_not_intro hm2)]

/-- Claim C7 witness: on the normalized selection from (column 2, row 1) to
(column 4, row 3), the end row selects columns `0..5` and the interior row
2 selects the whole row. -/
theorem cols_for_row_spec_witness :
    (SelectedRange.mk ⟨2, 1⟩ ⟨4, 3⟩).cols_for_row 3 false = ⟨0, 5⟩ ∧
    (SelectedRange.mk ⟨2, 1⟩ ⟨4, 3⟩).cols_for_row 2 false = ⟨0, usizeMax⟩ := by
  have h := cols_for_row_spec (SelectedRange.mk ⟨2, 1⟩ ⟨4, 3⟩)
    (by simp [cpLe]) (by decide) (by decide) (by decide) (by decide) (by decide)
  exact ⟨(h.2.1 (by decide)).1, h.2.2.1 2 (by decide) (by decide)⟩

end MassiveTerminal
namespace MassiveTerminal

/-- The start clip of `SelectedRange::clamp_to_rows`:
`if rows.start > start.row { start.row = rows.start; start.column = 0 }`. -/
def SelectedRange.clip_start (s : SelectedRange) (rows : IRange) : CellPos :=
  if rows.start > s.start.row then CellPos.new 0 rows.start else s.start

/-- The end clip of `SelectedRange::clamp_to_rows`:
`if rows.end <= end.row { end.row = rows.end - 1;
end.column = columns.cast_signed() - 1 }`; the `usize → isize` cast is the
`Nat → Int` coercion. -/
def SelectedRange.clip_end (s : SelectedRange) (rows : IRange)
    (columns : Nat) : CellPos :=
  if rows.stop ≤ s.end_.row then CellPos.new ((columns : Int) - 1) (rows.stop - 1)
  else s.end_

/-- Rust `SelectedRange::clamp_to_rows`. -/
def SelectedRange.clamp_to_rows (s : SelectedRange) (rows : IRange)
    (columns : Nat) : Option SelectedRange :=
  if ¬ (s.stable_rows.intersects rows = true) then none
  else
    let start := s.clip_start rows
    let end_ := s.clip_end rows columns
    if start.row = end_.row ∧ start.column > end_.column then none
    else some (SelectedRange.new start end_)

/-- Claim C8: `clamp_to_rows` returns `none` when the selection's row span
shares no row with the retained range and when clipping collapses the range
to empty; whenever it returns a range, every row of that range lies inside
the retained range, and a clipped end column is bounded by the terminal
column count. -/
theorem clamp_to_rows_spec (s : SelectedRange) (rows : IRange) (columns : Nat) :
    ((¬ ∃ x, s.stable_rows.memP x ∧ rows.memP x) →
      s.clamp_to_rows rows columns = none) ∧
    ((s.clip_start rows).row = (s.clip_end rows columns).row →
      (s.clip_start rows).column > (s.clip_end rows columns).column →
      s.clamp_to_rows rows columns = none) ∧
    (∀ r, s.clamp_to_rows rows columns = some r →
      (∀ x, r.stable_rows.memP x → rows.memP x) ∧
      (rows.stop ≤ s.end_.row → r.end_.column < (columns : Int))) := by
  refine ⟨?_, ?_, ?_⟩
  · intro hno
    have hint : ¬ (s.stable_rows.intersects rows = true) := by
      rw [IRange.intersects_iff_common]
      exact hno
    unfold SelectedRange.clamp_to_rows
    rw [if_pos hint]
  · intro h1 h2
    unfold SelectedRange.clamp_to_rows
    by_cases hint : s.stable_rows.intersects rows = true
    · rw [if_neg (not_not_intro hint), if_pos ⟨h1, h2⟩]
    · rw [if_pos hint]
  · intro r hr
    unfold SelectedRange.clamp_to_rows at hr
    by_cases hint : s.stable_rows.intersects rows = true
    · rw [if_neg (not_not_intro hint)] at hr
      have hcommon : max s.stable_rows.start rows.start
          < min s.stable_rows.stop rows.stop := by
        have := hint
        unfold IRange.intersects at this
        exact of_decide_eq_true this
      simp only [SelectedRange.stable_rows, satAdd1] at hcommon
      by_cases hcol : (s.clip_start rows).row = (s.clip_end rows columns).row ∧
          (s.clip_start rows).column > (s.clip_end rows columns).column
      · rw [if_pos hcol] at hr
        exact absurd hr (by simp)
      · rw [if_neg hcol] at hr
        have hcs_row : (s.clip_start rows).row = max s.start.row rows.start := by
          unfold SelectedRange.clip_start CellPos.new
          split <;> first | omega | (dsimp only; omega)
        have hce_row : (s.clip_end rows columns).row
            = min s.end_.row (rows.stop - 1) := by
          unfold SelectedRange.clip_end CellPos.new
          split <;> first | omega | (dsimp only; omega)
        have hrows_le : (s.clip_start rows).row ≤ (s.clip_end rows columns).row := by
          rw [hcs_row, hce_row]
          omega
        have hle : cpLe (s.clip_start rows) (s.clip_end rows columns) := by
          rcases lt_or_eq_of_le hrows_le with h | h
          · exact Or.inl h
          · refine Or.inr ⟨h, ?_⟩
            by_contra hgt
            exact hcol ⟨h, by omega⟩
        have hnew : SelectedRange.new (s.clip_start rows) (s.clip_end rows columns)
            = ⟨s.clip_start rows, s.clip_end rows columns⟩ := by
          unfold SelectedRange.new
          rw [if_pos hle]
        rw [hnew] at hr
        have hreq : r = ⟨s.clip_start rows, s.clip_end rows columns⟩ :=
          (Option.some.injEq _ _ ▸ hr).symm
        subst hreq
        constructor
        · intro x hx
          simp only [SelectedRange.stable_rows, IRange.memP, satAdd1] at hx
          obtain ⟨hx1, hx2⟩ := hx
          rw [hcs_row] at hx1
          rw [hce_row] at hx2
          exact ⟨by omega, by omega⟩
        · intro hclip
          show (s.clip_end rows columns).column < (columns : Int)
          unfold SelectedRange.clip_end CellPos.new
          rw [if_pos hclip]
          dsimp only
          omega
    · rw [if_pos hint] at hr
      exact absurd hr (by simp)

/-- Claim C8 witness: clamping the selection (column 0, row 0)–(column 5,
row 10) to retained rows `2..4` with 80 columns yields the range
(0, 2)–(79, 3); row 3 of the result lies inside `2..4` and the clipped end
column 79 is below the column count. -/
theorem clamp_to_rows_spec_witness :
    IRange.memP ⟨2, 4⟩ 3 ∧ ((79 : Int) < (80 : Nat)) ∧
    (SelectedRange.mk ⟨0, 0⟩ ⟨5, 10⟩).clamp_to_rows ⟨2, 4⟩ 80
      = some ⟨⟨0, 2⟩, ⟨79, 3⟩⟩ := by
  have h := clamp_to_rows_spec (SelectedRange.mk ⟨0, 0⟩ ⟨5, 10⟩) ⟨2, 4⟩ 80
  have heq : (SelectedRange.mk ⟨0, 0⟩ ⟨5, 10⟩).clamp_to_rows ⟨2, 4⟩ 80
      = some ⟨⟨0, 2⟩, ⟨79, 3⟩⟩ := by decide
  have hsome := h.2.2 ⟨⟨0, 2⟩, ⟨79, 3⟩⟩ heq
  exact ⟨hsome.1 3 (by decide), hsome.2 (by decide), heq⟩

end MassiveTerminal
namespace MassiveTerminal

/-! Virtualized line pool (`src/terminal/view.rs`) -/

/-- Rust `LineVisuals`: the two staged visual handles of a line (text and
overlays) and its fixed top offset inside its bucket. -/
structure LineVisuals where
  visual : Nat
  overlays : Nat
  top_offset : Int
  deriving Repr, DecidableEq

/-- The pool state of `TerminalView` that `update_view_range` operates on:
`first_line_stable_index` and the `VecDeque<LineVisuals>`. -/
structure TerminalViewPool where
  first_line_stable_index : Int
  lines : List LineVisuals
  deriving Repr, DecidableEq

/-- The `new_visual` closure of `update_view_range`: acquire a line
location for the row, stage the line visual and the overlay visual. -/
def new_visual (B : Int) (st : ScrollLocations × Scene) (stable_index : Int) :
    LineVisuals × (ScrollLocations × Scene) :=
  let ((location, top_offset), sl, scene) :=
    ScrollLocations.acquire_line_location B st.2 st.1 stable_index
  let (visual, scene) := scene.stage
  let (overlays, scene) := scene.stage
  let _ := location
  (⟨visual, overlays, top_offset⟩, (sl, scene))

/-- Map `new_visual` over a list of rows, threading allocator and scene
state left to right (the iteration order of the Rust `map` / `for_each`
closures). -/
def thread_new_visuals (B : Int) (st : ScrollLocations × Scene) :
    List Int → List LineVisuals × (ScrollLocations × Scene)
  | [] => ([], st)
  | x :: xs =>
      let (v, st') := new_visual B st x
      let (vs, st'') := thread_new_visuals B st' xs
      (v :: vs, st'')

/-- The ascending list of rows of a half-open range (Rust range
iteration). -/
def IRange.toList (r : IRange) : List Int :=
  (List.range (r.stop - r.start).toNat).map (fun i : Nat => r.start + (i : Int))

/-- The result bundle of `update_view_range`: the new pool state, the
threaded allocator and scene, and the returned `RangeSet` of rows whose
content must be provided. -/
structure ViewRangeUpdate where
  pool : TerminalViewPool
  alloc : ScrollLocations × Scene
  required_line_updates : RangeSet
  deriving Repr, DecidableEq

/-- The `match top_delta` step of `TerminalView::update_view_range`:
drop scrolled-past rows from the front, or prepend freshly acquired
visuals for newly exposed rows above.  The Rust
`range.rev().for_each(push_front)` is expressed as threading the
descending row list and prepending the result reversed — element for
element the same deque and the same allocator/scene state.  Returns the
adjusted pool, the threaded allocator/scene, and the updates requested so
far. -/
def update_view_range_top (B : Int) (sl : ScrollLocations) (scene : Scene)
    (pool : TerminalViewPool) (view_range current_range : IRange) :
    TerminalViewPool × (ScrollLocations × Scene) × RangeSet :=
  let top_delta := view_range.start - current_range.start
  if top_delta > 0 then
    (⟨pool.first_line_stable_index + top_delta,
        pool.lines.drop top_delta.toNat⟩, (sl, scene), [])
  else if top_delta < 0 then
    let ts := thread_new_visuals B (sl, scene)
      (IRange.toList ⟨view_range.start, current_range.start⟩).reverse
    (⟨view_range.start, ts.1.reverse ++ pool.lines⟩, ts.2,
      RangeSet.add_range [] ⟨view_range.start, current_range.start⟩)
  else (pool, (sl, scene), [])

/-- The `match bottom_delta` step of `TerminalView::update_view_range`:
extend the tail with freshly acquired visuals, or truncate it. -/
def update_view_range_bottom (B : Int)
    (step_top : TerminalViewPool × (ScrollLocations × Scene) × RangeSet)
    (view_range current_range : IRange) : ViewRangeUpdate :=
  let pool1 := step_top.1
  let st1 := step_top.2.1
  let req1 := step_top.2.2
  let bottom_delta := view_range.stop - current_range.stop
  if bottom_delta > 0 then
    let new_lines : IRange := ⟨current_range.stop, view_range.stop⟩
    let ts2 := thread_new_visuals B st1 new_lines.toList
    { pool := ⟨pool1.first_line_stable_index, pool1.lines ++ ts2.1⟩
      alloc := ts2.2
      required_line_updates := RangeSet.add_range req1 new_lines }
  else if bottom_delta < 0 then
    { pool := ⟨pool1.first_line_stable_index,
        pool1.lines.take (pool1.lines.length - (-bottom_delta).toNat)⟩
      alloc := st1
      required_line_updates := req1 }
  else
    { pool := pool1, alloc := st1, required_line_updates := req1 }

/-- Rust `TerminalView::update_view_range`.  On a non-overlapping range the pool
is reset wholesale and the whole range is requested; on overlap the two
delta steps above adjust front and tail.  The `assert!` and the two
`debug_assert!`s of the source are consequences of the theorems below. -/
def update_view_range (B : Int) (scene : Scene) (sl : ScrollLocations)
    (pool : TerminalViewPool) (view_range : IRange) : ViewRangeUpdate :=
  let current_range := withLen pool.first_line_stable_index pool.lines.length
  if ¬ (view_range.intersects current_range = true) then
    -- Non-overlapping: reset completely.
    let ts := thread_new_visuals B (sl, scene) view_range.toList
    { pool := ⟨view_range.start, ts.1⟩
      alloc := ts.2
      required_line_updates := RangeSet.add_range [] view_range }
  else
    update_view_range_bottom B
      (update_view_range_top B sl scene pool view_range current_range)
      view_range current_range

/-- The line visual a pool currently holds for a stable row, if any. -/
def TerminalViewPool.entryAt (p : TerminalViewPool) (r : Int) :
    Option LineVisuals :=
  if p.first_line_stable_index ≤ r then
    p.lines[(r - p.first_line_stable_index).toNat]?
  else none

theorem thread_new_visuals_length (B : Int) (st : ScrollLocations × Scene)
    (xs : List Int) : (thread_new_visuals B st xs).1.length = xs.length := by
  induction xs generalizing st with
  | nil => rfl
  | cons x xs ih =>
      simp only [thread_new_visuals]
      simp [ih]

theorem IRange.toList_length (r : IRange) :
    r.toList.length = (r.stop - r.start).toNat := by
  rw [IRange.toList, List.length_map, List.length_range]

end MassiveTerminal
namespace MassiveTerminal

theorem update_view_range_top_spec (B : Int) (sl : ScrollLocations)
    (scene : Scene) (pool : TerminalViewPool) (view_range : IRange)
    (hv : view_range.start
        < pool.first_line_stable_index + pool.lines.length) :
    (update_view_range_top B sl scene pool view_range
        (withLen pool.first_line_stable_index
          pool.lines.length)).1.first_line_stable_index = view_range.start ∧
    (((update_view_range_top B sl scene pool view_range
        (withLen pool.first_line_stable_index
          pool.lines.length)).1.lines.length : Int)
      = pool.first_line_stable_index + pool.lines.length - view_range.start) ∧
    (∀ x, (update_view_range_top B sl scene pool view_range
        (withLen pool.first_line_stable_index
          pool.lines.length)).2.2.memP x →
      view_range.start ≤ x ∧ x < pool.first_line_stable_index) ∧
    (∀ x, pool.first_line_stable_index ≤ x → view_range.start ≤ x →
      (update_view_range_top B sl scene pool view_range
        (withLen pool.first_line_stable_index
          pool.lines.length)).1.entryAt x = pool.entryAt x) := by
  simp only [update_view_range_top, withLen]
  rcases lt_trichotomy (view_range.start - pool.first_line_stable_index) 0
    with h | h | h
  · rw [if_neg (by omega), if_pos h]
    have hn : (thread_new_visuals B (sl, scene)
        (IRange.toList ⟨view_range.start, pool.first_line_stable_index⟩).reverse).1.reverse.length
        = (pool.first_line_stable_index - view_range.start).toNat := by
      rw [List.length_reverse, thread_new_visuals_length, List.length_reverse,
        IRange.toList_length]
    refine ⟨rfl, ?_, ?_, ?_⟩
    · dsimp only
      rw [List.length_append, hn]
      push_cast
      omega
    · intro x hx
      simp only [RangeSet.memP, RangeSet.add_range, List.nil_append,
        List.mem_singleton, IRange.memP] at hx
      obtain ⟨r, hr, hmem⟩ := hx
      subst hr
      exact hmem
    · intro x hx1 hx2
      unfold TerminalViewPool.entryAt
      dsimp only
      rw [if_pos hx2, if_pos hx1,
        List.getElem?_append_right (by rw [hn]; omega), hn]
      congr 1
      omega
  · rw [if_neg (by omega), if_neg (by omega)]
    refine ⟨by dsimp only; omega, by dsimp only; omega, ?_,
      fun x hx1 hx2 => rfl⟩
    intro x hx
    simp [RangeSet.memP] at hx
  · rw [if_pos h]
    refine ⟨by dsimp only; omega, ?_, ?_, ?_⟩
    · dsimp only
      rw [List.length_drop]
      omega
    · intro x hx
      simp [RangeSet.memP] at hx
    · intro x hx1 hx2
      unfold TerminalViewPool.entryAt
      dsimp only
      rw [if_pos (by omega), if_pos hx1, List.getElem?_drop]
      congr 1
      omega

end MassiveTerminal
namespace MassiveTerminal

theorem update_view_range_bottom_spec (B : Int)
    (st : TerminalViewPool × (ScrollLocations × Scene) × RangeSet)
    (view_range current_range : IRange)
    (hfirst : st.1.first_line_stable_index = view_range.start)
    (hlen : (st.1.lines.length : Int) = current_range.stop - view_range.start)
    (hne : view_range.start < view_range.stop)
    (hvc : view_range.start < current_range.stop) :
    (update_view_range_bottom B st view_range
        current_range).pool.first_line_stable_index = view_range.start ∧
    (((update_view_range_bottom B st view_range
        current_range).pool.lines.length : Int)
      = view_range.stop - view_range.start) ∧
    (∀ x, (update_view_range_bottom B st view_range
        current_range).required_line_updates.memP x →
      st.2.2.memP x ∨ (current_range.stop ≤ x ∧ x < view_range.stop)) ∧
    (∀ x, view_range.start ≤ x → x < view_range.stop → x < current_range.stop →
      (update_view_range_bottom B st view_range current_range).pool.entryAt x
        = st.1.entryAt x) := by
  simp only [update_view_range_bottom]
  rcases lt_trichotomy (view_range.stop - current_range.stop) 0 with h | h | h
  · rw [if_neg (by omega), if_pos h]
    refine ⟨hfirst, ?_, fun x hx => Or.inl hx, ?_⟩
    · dsimp only
      rw [List.length_take]
      omega
    · intro x hx1 hx2 hx3
      unfold TerminalViewPool.entryAt
      dsimp only
      rw [if_pos (hfirst ▸ hx1), if_pos (hfirst ▸ hx1),
        List.getElem?_take, if_pos (by omega)]
  · rw [if_neg (by omega), if_neg (by omega)]
    exact ⟨hfirst, by dsimp only; omega, fun x hx => Or.inl hx,
      fun x _ _ _ => rfl⟩
  · rw [if_pos h]
    refine ⟨hfirst, ?_, ?_, ?_⟩
    · dsimp only
      rw [List.length_append, thread_new_visuals_length, IRange.toList_length]
      dsimp only
      omega
    · intro x hx
      simp only [RangeSet.memP, RangeSet.add_range, List.mem_append,
        List.mem_singleton] at hx
      obtain ⟨r, hr | hr, hmem⟩ := hx
      · exact Or.inl ⟨r, hr, hmem⟩
      · subst hr
        exact Or.inr hmem
    · intro x hx1 hx2 hx3
      unfold TerminalViewPool.entryAt
      dsimp only
      rw [if_pos (hfirst ▸ hx1), if_pos (hfirst ▸ hx1),
        List.getElem?_append, if_pos (by omega)]

end MassiveTerminal
namespace MassiveTerminal

/-- Claim C1 (amended): after any `update_view_range` call with a non-empty
range — from any pool state, hence after every sequence of calls starting
from a fresh view, including non-overlapping jumps — the pool's length
equals the range's length and `first_line_stable_index` equals the range's
start; the returned set of rows needing content is a subset of the range
(the whole range on a non-overlapping call, so not strict in general), is
disjoint from the rows shared with the previous window, and those shared
rows keep their existing visuals unchanged. -/
theorem update_view_range_spec (B : Int) (scene : Scene) (sl : ScrollLocations)
    (pool : TerminalViewPool) (view_range : IRange)
    (hne : view_range.start < view_range.stop) :
    (update_view_range B scene sl pool view_range).pool.first_line_stable_index
        = view_range.start ∧
    (((update_view_range B scene sl pool view_range).pool.lines.length : Int)
        = view_range.stop - view_range.start) ∧
    (∀ x, (update_view_range B scene sl pool view_range).required_line_updates.memP x
        → view_range.memP x) ∧
    (∀ x, (update_view_range B scene sl pool view_range).required_line_updates.memP x
        → ¬ ((withLen pool.first_line_stable_index pool.lines.length).memP x
              ∧ view_range.memP x)) ∧
    (∀ x, (withLen pool.first_line_stable_index pool.lines.length).memP x
        → view_range.memP x
        → (update_view_range B scene sl pool view_range).pool.entryAt x
            = pool.entryAt x) := by
  by_cases hint : view_range.intersects
      (withLen pool.first_line_stable_index pool.lines.length) = true
  case neg =>
    have hres : update_view_range B scene sl pool view_range =
        { pool := ⟨view_range.start,
            (thread_new_visuals B (sl, scene) view_range.toList).1⟩
          alloc := (thread_new_visuals B (sl, scene) view_range.toList).2
          required_line_updates := RangeSet.add_range [] view_range } := by
      unfold update_view_range
      rw [if_pos hint]
    have hdisj : ∀ x,
        ¬ ((withLen pool.first_line_stable_index pool.lines.length).memP x
            ∧ view_range.memP x) := by
      intro x ⟨hc, hv⟩
      exact hint ((IRange.intersects_iff_common _ _).mpr ⟨x, hv, hc⟩)
    rw [hres]
    refine ⟨rfl, ?_, ?_, ?_, ?_⟩
    · dsimp only
      rw [thread_new_visuals_length, IRange.toList_length]
      omega
    · intro x hx
      simp only [RangeSet.memP, RangeSet.add_range, List.nil_append,
        List.mem_singleton] at hx
      obtain ⟨r, hr, hmem⟩ := hx
      subst hr
      exact hmem
    · intro x _
      exact hdisj x
    · intro x hc hv
      exact absurd ⟨hc, hv⟩ (hdisj x)
  case pos =>
    have hcap := hint
    simp only [IRange.intersects, withLen, decide_eq_true_eq] at hcap
    have hres : update_view_range B scene sl pool view_range =
        update_view_range_bottom B
          (update_view_range_top B sl scene pool view_range
            (withLen pool.first_line_stable_index pool.lines.length))
          view_range (withLen pool.first_line_stable_index pool.lines.length) := by
      unfold update_view_range
      rw [if_neg (not_not_intro hint)]
    have htop := update_view_range_top_spec B sl scene pool view_range (by omega)
    have hbot := update_view_range_bottom_spec B
      (update_view_range_top B sl scene pool view_range
        (withLen pool.first_line_stable_index pool.lines.length))
      view_range (withLen pool.first_line_stable_index pool.lines.length)
      htop.1 (by rw [htop.2.1]; simp [withLen]) hne
      (by simp only [withLen]; omega)
    rw [hres]
    refine ⟨hbot.1, hbot.2.1, ?_, ?_, ?_⟩
    · intro x hx
      rcases hbot.2.2.1 x hx with hx' | hx'
      · obtain ⟨h1, h2⟩ := htop.2.2.1 x hx'
        exact ⟨h1, by omega⟩
      · simp only [withLen] at hx'
        exact ⟨by omega, hx'.2⟩
    · intro x hx ⟨hc, hv⟩
      simp only [withLen, IRange.memP] at hc
      rcases hbot.2.2.1 x hx with hx' | hx'
      · obtain ⟨h1, h2⟩ := htop.2.2.1 x hx'
        omega
      · simp only [withLen] at hx'
        omega
    · intro x hc hv
      simp only [withLen, IRange.memP] at hc
      obtain ⟨hv1, hv2⟩ := hv
      exact (hbot.2.2.2 x hv1 hv2 (by simp only [withLen]; omega)).trans
        (htop.2.2.2 x (by omega) hv1)

end MassiveTerminal
namespace MassiveTerminal

/-- Claim C1 counterexample: on a fresh (empty) view, `update_view_range`
with the non-overlapping range `0..1` returns the whole range as needing
content, so the returned set equals the range and is not a strict
subset. -/
theorem update_view_range_strict_subset_counterexample :
    ¬ ∃ x, (⟨0, 1⟩ : IRange).memP x ∧
      ¬ (update_view_range 16 ⟨0⟩ (ScrollLocations.new 10 0)
          ⟨0, []⟩ ⟨0, 1⟩).required_line_updates.memP x := by
  rintro ⟨x, hx, hnx⟩
  apply hnx
  have hx0 : x = 0 := by
    simp only [IRange.memP] at hx
    omega
  subst hx0
  decide

/-- Claim C1 witness: reconciling a fresh empty pool to the range `0..2`
leaves the pool at first index 0 with exactly two line visuals. -/
theorem update_view_range_spec_witness :
    (update_view_range 16 ⟨0⟩ (ScrollLocations.new 10 0) ⟨0, []⟩
        ⟨0, 2⟩).pool.first_line_stable_index = 0 ∧
    (((update_view_range 16 ⟨0⟩ (ScrollLocations.new 10 0) ⟨0, []⟩
        ⟨0, 2⟩).pool.lines.length : Int) = 2) := by
  have h := update_view_range_spec 16 ⟨0⟩ (ScrollLocations.new 10 0) ⟨0, []⟩
    ⟨0, 2⟩ (by decide)
  exact ⟨h.1, by rw [h.2.1]; decide⟩

end MassiveTerminal
